import Mathlib

/-!
Shallow embedding of the `1xch/log` structured logging package (src/log.go),
used to check the claims of the specification against the code.

Conventions of the embedding (everything lives in namespace `Lg`):
- Go's `Level` (an `int` enumeration) becomes an inductive type with its
  numeric value exposed by `Level.toNat`; the Go comparison `a >= b` on
  levels is `levelGE`.
- Go's `interface{}` field values become the inductive `Val` (string and
  int values; one non-string constructor suffices to model the type
  assertion `fd.Value.(string)` in `formatTo`, which panics on non-strings:
  a panic is modelled by `Option.none`).
- `strings.ToLower` is modelled by mapping `Char.toLower` over the
  characters (the recognized level names are ASCII, where the two agree).
- `fmt.Sprintf` is modelled by `goSprintf` for the verbs the package and
  its tests exercise (`%s`, `%d`, `%%`; missing/extra-argument markers as
  Go prints them).
- `sort.Sort` (package sort) on a `FieldsSort` slice is modelled by
  `goSortSmall`, which reproduces Go's algorithm exactly for slices of at
  most 12 elements (the quickSort base case, Go 1.6 through Go 1.18: one
  shell-sort pass with gap 6 followed by insertion sort; slices that small
  never reach `doPivot`). Theorems about sorting therefore carry a
  `length ≤ 12` hypothesis marking the faithful regime.
- The record pipeline `log` (fire PRE hooks, render, copy to the sink,
  fire POST hooks) is modelled by `logRun`, a state-passing function over
  a `World` (sink contents and the diagnostic stream written via
  `os.Stdout`) which also returns the ordered trace of pipeline events.
  Process exit (`os.Exit`) and Go panics are modelled as terminal hook
  outcomes (`HookOut.exit` / `HookOut.panicked`) that halt the pipeline.
- Hooks receive the full `Entry` in Go; here they receive the entry data
  they can observe, and are pure (mutation of the entry by a hook is not
  modelled; no claim depends on it).
-/

namespace Lg

/-- Go `Level` enumeration: `LUnrecognized(0) < LPanic < LFatal < LError <
LWarn < LInfo < LDebug` (src/log.go:410-418). -/
inductive Level where
  | LUnrecognized
  | LPanic
  | LFatal
  | LError
  | LWarn
  | LInfo
  | LDebug
deriving DecidableEq, Repr

/-- Numeric value of a level, as in the Go `iota` constant block. -/
def Level.toNat : Level → Nat
  | .LUnrecognized => 0
  | .LPanic => 1
  | .LFatal => 2
  | .LError => 3
  | .LWarn => 4
  | .LInfo => 5
  | .LDebug => 6

/-- The Go integer comparison `a >= b` on two levels. -/
def levelGE (a b : Level) : Bool :=
  decide (b.toNat ≤ a.toNat)

/-- Model of `strings.ToLower` (character-wise lowercasing; ASCII case
mapping, which agrees with Go on the level-name alphabet). -/
def goToLower (s : String) : String :=
  ⟨s.data.map Char.toLower⟩

/-- Model of `strings.ToUpper` (character-wise uppercasing, ASCII). -/
def goToUpper (s : String) : String :=
  ⟨s.data.map Char.toUpper⟩

/-- `StringToLevel` (src/log.go:432-437): case-insensitive name lookup in the
`stringToLevel` map, defaulting to `LUnrecognized`.  The map has six distinct
keys, so the lookup is written as a chain of equality tests. -/
def StringToLevel (lv : String) : Level :=
  let k := goToLower lv
  if k = "panic" then .LPanic
  else if k = "fatal" then .LFatal
  else if k = "error" then .LError
  else if k = "warn" then .LWarn
  else if k = "info" then .LInfo
  else if k = "debug" then .LDebug
  else .LUnrecognized

/-- `Level.String` (src/log.go:440-456): the switch over recognized levels,
with `"unrecognized"` as the fall-through result. -/
def Level.String : Level → String
  | .LPanic => "panic"
  | .LFatal => "fatal"
  | .LError => "error"
  | .LWarn => "warn"
  | .LInfo => "info"
  | .LDebug => "debug"
  | .LUnrecognized => "unrecognized"

/-- The six recognized level names, in map-key form (lowercase). -/
def levelNames : List String :=
  ["panic", "fatal", "error", "warn", "info", "debug"]

/-- ANSI attribute codes of `Level.Color` (src/log.go:459-475): the
high-intensity foreground color bound to each level (white for the default
branch). -/
def Level.colorParams : Level → List Nat
  | .LPanic => [91]
  | .LFatal => [95]
  | .LError => [96]
  | .LWarn => [93]
  | .LInfo => [92]
  | .LDebug => [94]
  | .LUnrecognized => [97]

/-- Field values (`interface{}` in Go).  `str` is the only value the
`fd.Value.(string)` assertion in `formatTo` accepts; `int` stands for any
non-string dynamic type. -/
inductive Val where
  | str (s : String)
  | int (n : Int)
deriving DecidableEq, Repr

/-- Whether a value's dynamic type is `string`. -/
def isStrVal : Val → Bool
  | .str _ => true
  | .int _ => false

/-- `Field` (src/log.go:316-320): `{Order int, Key string, Value interface{}}`. -/
structure Field where
  Order : Int
  Key : String
  Value : Val
deriving DecidableEq, Repr

/-- The loop of `mkFields` with the range index `i` made explicit: field `i`
of the remaining input gets `Order = i + index` and
`Key = "Field" + (i + index)` (via `fmt.Sprintf("Field%d", idx)`). -/
def mkFieldsAux (index : Int) : Nat → List Val → List Field
  | _, [] => []
  | i, vv :: rest =>
    { Order := (i : Int) + index
      Key := "Field" ++ toString ((i : Int) + index)
      Value := vv } :: mkFieldsAux index (i + 1) rest

/-- `mkFields(index, v...)` (src/log.go:322-329). -/
def mkFields (index : Int) (v : List Val) : List Field :=
  mkFieldsAux index 0 v

/-- `mkFormatFields(format, v...)` (src/log.go:331-336): a `Format`-keyed field
at Order 1 followed by `mkFields(1, v...)`. -/
def mkFormatFields (format : String) (v : List Val) : List Field :=
  { Order := 1, Key := "Format", Value := .str format } :: mkFields 1 v

/-- The comparison `FieldsSort.Less` (src/log.go:347-349): strict order on the
`Order` component. -/
def fieldLess (a b : Field) : Bool :=
  decide (a.Order < b.Order)

/-- The non-strict companion of `fieldLess`, used to state sortedness. -/
def fieldLe (a b : Field) : Prop :=
  a.Order ≤ b.Order

/-- One shell-sort comparison pass with gap 6, phrased pair-wise: `as` holds
positions `0..5` of the slice and `bs` positions `6..`; position `k+6` is
swapped with position `k` exactly when its `Order` is strictly smaller.  For a
slice of at most 12 elements this is exactly the loop
`for i := a + 6; i < b; i++ { if data.Less(i, i-6) { data.Swap(i, i-6) } }`
of Go's `quickSort` base case (each index is visited at most once on each
side, so the iterations are independent). -/
def shellZip : List Field → List Field → List Field × List Field
  | a :: as, b :: bs =>
    if fieldLess b a then (b :: (shellZip as bs).1, a :: (shellZip as bs).2)
    else (a :: (shellZip as bs).1, b :: (shellZip as bs).2)
  | as, bs => (as, bs)

/-- The shell pass of Go's `quickSort` base case.  For slices of length at
most 6 the loop body never runs. -/
def shellPass (l : List Field) : List Field :=
  if l.length ≤ 6 then l
  else
    let p := shellZip (l.take 6) (l.drop 6)
    p.1 ++ p.2

/-- Insertion of one element into a sorted prefix, as performed by the inner
loop of Go's `insertionSort` (bubble left while strictly `Less`): the element
lands directly before the first strictly greater element. -/
def insertOrdered (x : Field) : List Field → List Field
  | [] => [x]
  | y :: ys => if fieldLess x y then x :: y :: ys else y :: insertOrdered x ys

/-- Go's `insertionSort(data, a, b)`: process elements left to right, each one
inserted into the already sorted prefix. -/
def insertionSortGo (l : List Field) : List Field :=
  l.foldl (fun acc x => insertOrdered x acc) []

/-- `sort.Sort` on a `FieldsSort` slice (called by `format`, src/log.go:638),
for slices of at most 12 elements: Go 1.6 through Go 1.18 run the shell pass
with gap 6 followed by `insertionSort` and never enter `doPivot` below 13
elements. -/
def goSortSmall (l : List Field) : List Field :=
  insertionSortGo (shellPass l)

/-- String form Go's `fmt` package gives a value under the `%s` verb. -/
def stringOfVal : Val → String
  | .str s => s
  | .int n => "%!s(int=" ++ toString n ++ ")"

/-- String form under the `%d` verb. -/
def stringOfValD : Val → String
  | .str s => "%!d(string=" ++ s ++ ")"
  | .int n => toString n

/-- Go's rendering of one extra argument inside the `%!(EXTRA ...)` marker. -/
def extraOfVal : Val → String
  | .str s => "string=" ++ s
  | .int n => "int=" ++ toString n

/-- Trailing `%!(EXTRA type=value, ...)` marker for unconsumed arguments. -/
def goExtra (args : List Val) : String :=
  match args with
  | [] => ""
  | _ => "%!(EXTRA " ++ String.intercalate ", " (args.map extraOfVal) ++ ")"

/-- Model of `fmt.Sprintf` restricted to the verbs this package and its tests
use (`%s`, `%d`, `%%`; any other verb is emitted with Go's `%!x(NOVERB)`
marker and consumes no argument; missing and extra arguments produce Go's
`MISSING`/`EXTRA` markers). -/
def sprintfAux : List Char → List Val → String
  | [], args => goExtra args
  | '%' :: [], args => "%!(NOVERB)" ++ goExtra args
  | '%' :: c :: cs, args =>
    if c = '%' then "%" ++ sprintfAux cs args
    else if c = 's' then
      match args with
      | [] => "%!s(MISSING)" ++ sprintfAux cs []
      | a :: rest => stringOfVal a ++ sprintfAux cs rest
    else if c = 'd' then
      match args with
      | [] => "%!d(MISSING)" ++ sprintfAux cs []
      | a :: rest => stringOfValD a ++ sprintfAux cs rest
    else "%!" ++ c.toString ++ "(NOVERB)" ++ sprintfAux cs args
  | c :: cs, args => c.toString ++ sprintfAux cs args

/-- `fmt.Sprintf(f, args...)` over the modelled verb subset. -/
def goSprintf (f : String) (args : List Val) : String :=
  sprintfAux f.data args

/-- `formatTo` (src/log.go:622-635) as a left fold over the fields: every
`Format`-keyed field sets the template `f` through the type assertion
`fd.Value.(string)` (a non-string value makes that assertion panic, modelled
by `none`); every other field appends its value to the argument list `ff`. -/
def formatToAux : List Field → Bool → String → List Val →
    Option (Bool × String × List Val)
  | [], tt, f, ff => some (tt, f, ff)
  | fd :: rest, tt, f, ff =>
    if fd.Key = "Format" then
      match fd.Value with
      | .str s => formatToAux rest true s ff
      | _ => none
    else formatToAux rest tt f (ff ++ [fd.Value])

/-- `formatTo(fds)` with the zero-initialised accumulators of the Go function
(`formattable = false`, `f = ""`, `ff = nil`). -/
def formatToM (fds : List Field) : Option (Bool × String × List Val) :=
  formatToAux fds false "" []

/-- `format(b, fds)` (src/log.go:637-647): sort the fields, split off the
`Format` template, then either apply it with `fmt.Fprintf` or print each
remaining value with `%s`.  `none` models the panic of the type assertion in
`formatTo`. -/
def formatM (fds : List Field) : Option String :=
  (formatToM (goSortSmall fds)).map fun r =>
    if r.1 then goSprintf r.2.1 r.2.2
    else String.join (r.2.2.map stringOfVal)

/-- Observable data of an `entry` (src/log.go:361-367): its explicit level
and its fields.  The creation time and the logger back-reference live outside
(the owning logger's state is passed alongside wherever the Go code reaches
through the embedded `Logger`). -/
structure EntryData where
  level : Level
  fields : List Field
deriving DecidableEq, Repr

/-- `entry.SetEntryLevel` (src/log.go:390-392). -/
def SetEntryLevel (e : EntryData) (l : Level) : EntryData :=
  { e with level := l }

/-- `entry.EntryLevel` (src/log.go:395-400): the explicit level unless it is
`LUnrecognized`, in which case the owning logger's configured level. -/
def EntryLevel (loggerLevel : Level) (e : EntryData) : Level :=
  if e.level ≠ .LUnrecognized then e.level else loggerLevel

/-- A formatter: `Format(Entry) ([]byte, error)` (src/log.go:478-480).  The
first argument is the owning logger's configured level (reachable from the
entry in Go); `none` models a Go panic inside `Format`, otherwise the result
carries the rendered bytes and the returned error value. -/
def Fmt : Type :=
  Level → EntryData → Option (String × Option String)

/-- `NullFormatter.Format` (src/log.go:505-507): nil bytes, nil error. -/
def nullFmt : Fmt := fun _ _ => some ("", none)

/-- `RawFormatter.Format` (src/log.go:515-521): the sorted/format-applied
field body followed by one newline, never an error (but the `formatTo` type
assertion can panic). -/
def RawFormatter_Format (e : EntryData) : Option (String × Option String) :=
  (formatM e.fields).map fun body => (body ++ "\n", none)

/-- The raw formatter as an installed `Fmt`. -/
def rawFmt : Fmt := fun _ e => RawFormatter_Format e

/-- `wrap` of the color type (src/log.go:685-694): pass-through when color is
disabled, otherwise escape-prefixed attribute sequence, content, reset. -/
def colorWrap (noColor : Bool) (params : List Nat) (s : String) : String :=
  if noColor then s
  else "\x1b[" ++ String.intercalate ";" (params.map toString) ++ "m"
       ++ s ++ "\x1b[0m"

/-- `TextFormatter.Format` (src/log.go:545-620) with `Sort = false` and the
default timestamp format, as produced by `MakeTextFormatter`: colorized
uppercase level name, the logger tag in black, the timestamp in blue (each
segment rendered through the fixed one-slot templates `"{.X} "`, i.e. the
value followed by one space), then the sorted/format-applied field body and a
newline.  `now` stands for `time.Now().Format(t.TimestampFormat)`; `noColor`
for the process-wide `NoColor` flag. -/
def TextFormatter_Format (name : String) (noColor : Bool) (now : String)
    (loggerLevel : Level) (e : EntryData) : Option (String × Option String) :=
  let lvl := EntryLevel loggerLevel e
  (formatM e.fields).map fun body =>
    (colorWrap noColor lvl.colorParams (goToUpper lvl.String ++ " ")
      ++ colorWrap noColor [90] (name ++ " ")
      ++ colorWrap noColor [94] (now ++ " ")
      ++ body ++ "\n", none)

/-- The text formatter as an installed `Fmt`. -/
def textFmt (name : String) (noColor : Bool) (now : String) : Fmt :=
  fun loggerLevel e => TextFormatter_Format name noColor now loggerLevel e

/-- Hook identity: the two built-in hooks installed by `newHooks`
(src/log.go:275-276) and user-registered hooks. -/
inductive HookId where
  | exitHook
  | panicHook
  | user (n : Nat)
deriving DecidableEq, Repr

/-- Outcome of one `Hook.Fire(entry)` call: a returned error value (possibly
nil), or a control-flow transfer that never returns (`os.Exit(1)` in the
fatal hook, `panic("panic hook")` in the panic hook). -/
inductive HookOut where
  | ok
  | err (s : String)
  | exit (n : Nat)
  | panicked (s : String)
deriving DecidableEq, Repr

/-- A registered hook: its identity and its `Fire` behaviour. -/
structure Hook where
  id : HookId
  run : EntryData → HookOut

/-- `Timing` (src/log.go:259-264). -/
inductive Timing where
  | PRE
  | POST
deriving DecidableEq, Repr

/-- The hook registry `map[Timing]map[Level][]Hook` (src/log.go:266-268),
as a total function with the empty list for absent keys (a missing Go map
entry and a nil slice fire identically). -/
def HooksReg : Type :=
  Timing → Level → List Hook

/-- The registry before `newHooks` installs the built-ins. -/
def emptyReg : HooksReg := fun _ _ => []

/-- `hooks.AddHook` (src/log.go:281-285): append to the list stored under the
exact (timing, level) pair. -/
def AddHook (r : HooksReg) (t : Timing) (l : Level) (hs : List Hook) : HooksReg :=
  fun t' l' => if t' = t ∧ l' = l then r t l ++ hs else r t' l'

/-- The built-in process-exit hook: `os.Exit(1)` (src/log.go:275). -/
def exitHook : Hook :=
  { id := .exitHook, run := fun _ => .exit 1 }

/-- The built-in panic hook: `panic("panic hook")` (src/log.go:276). -/
def panicHook : Hook :=
  { id := .panicHook, run := fun _ => .panicked "panic hook" }

/-- `newHooks` (src/log.go:270-278): empty registry plus the exit hook at
(POST, LFatal) and the panic hook at (POST, LPanic). -/
def newHooksReg : HooksReg :=
  AddHook (AddHook emptyReg .POST .LFatal [exitHook]) .POST .LPanic [panicHook]

/-- The loop of `hooks.Fire` (src/log.go:288-298): invoke each hook in order;
a returned non-nil error is returned at once (later hooks are not invoked);
an exit or panic transfers control out.  The second component records, in
order, the hooks that were actually invoked. -/
def fireList : List Hook → EntryData → HookOut × List HookId
  | [], _ => (.ok, [])
  | h :: hs, e =>
    match h.run e with
    | .ok => ((fireList hs e).1, h.id :: (fireList hs e).2)
    | o => (o, [h.id])

/-- `hooks.Fire(at, lv, e)`: look up the list for the exact (timing, level)
pair and run it (an absent pair is a no-op success). -/
def hooksFire (r : HooksReg) (at_ : Timing) (lv : Level) (e : EntryData) :
    HookOut × List HookId :=
  fireList (r at_ lv) e

/-- Observable state outside the logger: the sink its writer feeds and the
diagnostic fallback stream (`os.Stdout`, written by the `fmt.Fprintf` calls in
`read`, `copy` and `fire`). -/
structure World where
  sink : String
  diag : String
deriving DecidableEq, Repr

/-- One event of the record pipeline, in the order `log` performs them. -/
inductive Ev where
  | preFired (lv : Level) (ids : List HookId)
  | rendered (b : String) (err : Option String)
  | wrote (b : String)
  | postFired (lv : Level) (ids : List HookId)
  | exited (n : Nat)
  | panicked (s : String)
deriving DecidableEq, Repr

/-- The diagnostic print of the `fire` wrapper (src/log.go:110-116) on a
hook error. -/
def hookDiag (w : World) (o : HookOut) : World :=
  match o with
  | .err s => { w with diag := w.diag ++ "log: Failed to fire hook -- " ++ s ++ "\n" }
  | _ => w

/-- The logger state the pipeline reads: configured minimum level, active
formatter, hook registry (src/log.go:62-69). -/
structure LoggerM where
  level : Level
  formatter : Fmt
  hooks : HooksReg

/-- Message of the Go runtime panic raised by a failing type assertion. -/
def panicConvMsg : String := "interface conversion"

/-- `log(e)` (src/log.go:86-93): fire PRE hooks at the entry's effective
level, obtain the rendered bytes (`read`, printing a diagnostic when the
formatter returned an error but still using whatever bytes it returned), copy
them to the sink, fire POST hooks.  An exit or panic inside a hook, or a
panic inside the formatter, halts the pipeline at that point; the returned
event list is the ordered trace of what happened. -/
def logRun (lg : LoggerM) (e : EntryData) (w : World) : World × List Ev :=
  let lv := EntryLevel lg.level e
  let pre := hooksFire lg.hooks .PRE lv e
  let e1 := Ev.preFired lv pre.2
  match pre.1 with
  | .exit n => (w, [e1, .exited n])
  | .panicked s => (w, [e1, .panicked s])
  | o1 =>
    let w1 := hookDiag w o1
    match lg.formatter lg.level e with
    | none => (w1, [e1, .panicked panicConvMsg])
    | some (b, ferr) =>
      let w2 :=
        match ferr with
        | some s => { w1 with diag := w1.diag ++ "log: Failed to obtain reader -- " ++ s ++ "\n" }
        | none => w1
      let e2 := Ev.rendered b ferr
      let w3 := { w2 with sink := w2.sink ++ b }
      let e3 := Ev.wrote b
      let post := hooksFire lg.hooks .POST lv e
      let e4 := Ev.postFired lv post.2
      let w4 := hookDiag w3 post.1
      match post.1 with
      | .exit n => (w4, [e1, e2, e3, e4, .exited n])
      | .panicked s => (w4, [e1, e2, e3, e4, .panicked s])
      | _ => (w4, [e1, e2, e3, e4])

/-- Pipeline stage of an event: PRE hooks, render, write, POST hooks,
termination.  Every trace `logRun` produces is strictly increasing in stage. -/
def stage : Ev → Nat
  | .preFired _ _ => 0
  | .rendered _ _ => 1
  | .wrote _ => 2
  | .postFired _ _ => 3
  | .exited _ => 4
  | .panicked _ => 4

/-- `logger.Fatal` (src/log.go:119-123): gate on `l.level >= LFatal`, emit at
`LFatal` with `mkFields(0, v...)`.  `none` means the gate rejected the call
and no record was built or logged. -/
def Fatal (m : Level) (v : List Val) : Option EntryData :=
  if levelGE m .LFatal then some ⟨.LFatal, mkFields 0 v⟩ else none

/-- `logger.Fatalf` (src/log.go:126-130). -/
def Fatalf (m : Level) (format : String) (v : List Val) : Option EntryData :=
  if levelGE m .LFatal then some ⟨.LFatal, mkFormatFields format v⟩ else none

/-- `logger.Fatalln` (src/log.go:133-137): same gate and fields as `Fatal`. -/
def Fatalln (m : Level) (v : List Val) : Option EntryData :=
  if levelGE m .LFatal then some ⟨.LFatal, mkFields 0 v⟩ else none

/-- `logger.Panic` (src/log.go:140-144): gate on `l.level >= LPanic`. -/
def Panic (m : Level) (v : List Val) : Option EntryData :=
  if levelGE m .LPanic then some ⟨.LPanic, mkFields 0 v⟩ else none

/-- `logger.Panicf` (src/log.go:147-151). -/
def Panicf (m : Level) (format : String) (v : List Val) : Option EntryData :=
  if levelGE m .LPanic then some ⟨.LPanic, mkFormatFields format v⟩ else none

/-- `logger.Panicln` (src/log.go:154-156): delegates to `Panic`. -/
def Panicln (m : Level) (v : List Val) : Option EntryData :=
  Panic m v

/-- `logger.Print` (src/log.go:159-163): gate on `l.level >= LError`, emit at
`LInfo`. -/
def Print (m : Level) (v : List Val) : Option EntryData :=
  if levelGE m .LError then some ⟨.LInfo, mkFields 0 v⟩ else none

/-- `logger.Printf` (src/log.go:166-170). -/
def Printf (m : Level) (format : String) (v : List Val) : Option EntryData :=
  if levelGE m .LError then some ⟨.LInfo, mkFormatFields format v⟩ else none

/-- `logger.Println` (src/log.go:173-177): same gate and emitted level as
`Print`. -/
def Println (m : Level) (v : List Val) : Option EntryData :=
  if levelGE m .LError then some ⟨.LInfo, mkFields 0 v⟩ else none

/-- `logger.At` (src/log.go:180-182): no gate; the configured minimum `m` is
not consulted. -/
def At (m : Level) (lv : Level) (v : List Val) : Option EntryData :=
  some ⟨lv, mkFields 0 v⟩

/-- `logger.Atf` (src/log.go:185-187): no gate. -/
def Atf (m : Level) (lv : Level) (format : String) (v : List Val) : Option EntryData :=
  some ⟨lv, mkFormatFields format v⟩

/-! ### Helper lemmas about the field builders -/

/-- Every field `mkFieldsAux` emits from position `i` on has Order at least
`i + index`. -/
theorem mkFieldsAux_lowerBound (index : Int) :
    ∀ (v : List Val) (i : Nat) (fd : Field), fd ∈ mkFieldsAux index i v →
      (i : Int) + index ≤ fd.Order
  | [], _, _, h => by simp [mkFieldsAux] at h
  | vv :: rest, i, fd, h => by
    simp only [mkFieldsAux, List.mem_cons] at h
    rcases h with h | h
    · simp [h]
    · have hrec := mkFieldsAux_lowerBound index rest (i + 1) fd h
      push_cast at hrec ⊢
      omega

/-- The fields `mkFieldsAux` emits have strictly ascending Order. -/
theorem mkFieldsAux_pairwise (index : Int) :
    ∀ (v : List Val) (i : Nat),
      List.Pairwise (fun a b => a.Order < b.Order) (mkFieldsAux index i v)
  | [], _ => by simp [mkFieldsAux]
  | vv :: rest, i => by
    simp only [mkFieldsAux, List.pairwise_cons]
    refine ⟨fun fd hfd => ?_, mkFieldsAux_pairwise index rest (i + 1)⟩
    have hrec := mkFieldsAux_lowerBound index rest (i + 1) fd hfd
    show (i : Int) + index < fd.Order
    push_cast at hrec
    omega

/-- No decimal-suffixed `"Field..."` key is the reserved `"Format"` key. -/
theorem fieldKey_ne_format (z : Int) : "Field" ++ toString z ≠ "Format" := by
  intro h
  have h2 : ("Field" ++ toString z).data = "Format".data := by rw [h]
  rw [String.data_append] at h2
  rw [show "Field".data = ['F', 'i', 'e', 'l', 'd'] from rfl,
      show "Format".data = ['F', 'o', 'r', 'm', 'a', 't'] from rfl] at h2
  simp only [List.cons_append, List.cons.injEq] at h2
  exact absurd h2.2.1 (by decide)

/-- No field built by `mkFieldsAux` carries the reserved `"Format"` key. -/
theorem mkFieldsAux_key_ne (index : Int) :
    ∀ (v : List Val) (i : Nat) (fd : Field), fd ∈ mkFieldsAux index i v →
      fd.Key ≠ "Format"
  | [], _, _, h => by simp [mkFieldsAux] at h
  | vv :: rest, i, fd, h => by
    simp only [mkFieldsAux, List.mem_cons] at h
    rcases h with h | h
    · rw [h]
      exact fieldKey_ne_format _
    · exact mkFieldsAux_key_ne index rest (i + 1) fd h

/-- The values of the fields `mkFieldsAux` emits are the input values. -/
theorem mkFieldsAux_values (index : Int) :
    ∀ (v : List Val) (i : Nat), (mkFieldsAux index i v).map Field.Value = v
  | [], _ => rfl
  | vv :: rest, i => by
    simp only [mkFieldsAux, List.map_cons]
    rw [mkFieldsAux_values index rest (i + 1)]

/-- The `mkFormatFields` output is sorted by Order under `fieldLe` (the
`Format` head at Order 1 is a lower bound of the value fields, which ascend
from Order 1). -/
theorem mkFormatFields_sorted (f : String) (v : List Val) :
    List.Sorted fieldLe (mkFormatFields f v) := by
  unfold mkFormatFields mkFields
  rw [List.sorted_cons]
  constructor
  · intro b hb
    have hlb := mkFieldsAux_lowerBound 1 v 0 b hb
    show (1 : Int) ≤ b.Order
    push_cast at hlb
    omega
  · exact (mkFieldsAux_pairwise 1 v 0).imp (fun h => le_of_lt h)

/-! ### Helper lemmas about `formatTo` -/

/-- When no field carries the `"Format"` key, `formatTo` leaves the template
flag and template untouched and collects every value in order. -/
theorem formatToAux_no_format :
    ∀ (fds : List Field) (tt : Bool) (f : String) (ff : List Val),
      (∀ fd ∈ fds, fd.Key ≠ "Format") →
      formatToAux fds tt f ff = some (tt, f, ff ++ fds.map Field.Value)
  | [], tt, f, ff, _ => by simp [formatToAux]
  | fd :: rest, tt, f, ff, h => by
    have hk : fd.Key ≠ "Format" := h fd (by simp)
    simp only [formatToAux, if_neg hk]
    rw [formatToAux_no_format rest tt f (ff ++ [fd.Value])
      (fun g hg => h g (by simp [hg]))]
    simp

/-- A `"Format"`-keyed field whose value is not a string makes `formatTo`
panic (the `fd.Value.(string)` assertion), wherever it sits in the list. -/
theorem formatToAux_bad_format :
    ∀ (fds : List Field) (tt : Bool) (f : String) (ff : List Val),
      (∃ fd ∈ fds, fd.Key = "Format" ∧ isStrVal fd.Value = false) →
      formatToAux fds tt f ff = none
  | [], _, _, _, h => by simp at h
  | fd :: rest, tt, f, ff, h => by
    rcases h with ⟨g, hg, hkey, hval⟩
    rcases List.mem_cons.mp hg with rfl | hmem
    · simp only [formatToAux, if_pos hkey]
      cases hv : g.Value with
      | str s => rw [hv] at hval; simp [isStrVal] at hval
      | int n => rfl
    · by_cases hk : fd.Key = "Format"
      · cases hv : fd.Value with
        | str s =>
          simp only [formatToAux, if_pos hk, hv]
          exact formatToAux_bad_format rest true s ff ⟨g, hmem, hkey, hval⟩
        | int n => simp only [formatToAux, if_pos hk, hv]
      · simp only [formatToAux, if_neg hk]
        exact formatToAux_bad_format rest tt f (ff ++ [fd.Value]) ⟨g, hmem, hkey, hval⟩

/-! ### Helper lemmas about the embedded sort -/

/-- Inserting an element permutes to consing it. -/
theorem insertOrdered_perm (x : Field) :
    ∀ l : List Field, List.Perm (insertOrdered x l) (x :: l)
  | [] => by simp [insertOrdered]
  | y :: ys => by
    simp only [insertOrdered]
    split
    · exact List.Perm.refl _
    · exact ((insertOrdered_perm x ys).cons y).trans (List.Perm.swap x y ys)

/-- The insertion fold permutes to appending the input to the accumulator. -/
theorem foldl_insert_perm :
    ∀ (l acc : List Field),
      List.Perm (l.foldl (fun a x => insertOrdered x a) acc) (acc ++ l)
  | [], acc => by simp
  | x :: xs, acc => by
    simp only [List.foldl_cons]
    have h1 := foldl_insert_perm xs (insertOrdered x acc)
    have h2 : List.Perm (insertOrdered x acc ++ xs) ((x :: acc) ++ xs) :=
      (insertOrdered_perm x acc).append_right xs
    have h3 : List.Perm ((x :: acc) ++ xs) (acc ++ x :: xs) :=
      List.perm_middle.symm
    exact (h1.trans h2).trans h3

/-- Go's insertion sort permutes its input. -/
theorem insertionSortGo_perm (l : List Field) :
    List.Perm (insertionSortGo l) l := by
  have h := foldl_insert_perm l []
  rw [List.nil_append] at h
  exact h

/-- The shell pass only exchanges paired elements: the concatenation of its
two output tracks permutes the concatenation of its inputs. -/
theorem shellZip_perm :
    ∀ as bs : List Field,
      List.Perm ((shellZip as bs).1 ++ (shellZip as bs).2) (as ++ bs)
  | [], bs => by simp [shellZip]
  | a :: as, [] => by simp [shellZip]
  | a :: as, b :: bs => by
    have ih := shellZip_perm as bs
    simp only [shellZip]
    split
    · have s2 : List.Perm
          (b :: ((shellZip as bs).1 ++ a :: (shellZip as bs).2))
          (b :: a :: ((shellZip as bs).1 ++ (shellZip as bs).2)) :=
        List.perm_middle.cons b
      have s3 := (ih.cons a).cons b
      have s4 := List.Perm.swap a b (as ++ bs)
      have s5 : List.Perm (a :: b :: (as ++ bs)) (a :: (as ++ b :: bs)) :=
        (List.perm_middle.symm).cons a
      exact ((s2.trans s3).trans s4).trans s5
    · have s2 : List.Perm
          (a :: ((shellZip as bs).1 ++ b :: (shellZip as bs).2))
          (a :: b :: ((shellZip as bs).1 ++ (shellZip as bs).2)) :=
        List.perm_middle.cons a
      have s3 := (ih.cons b).cons a
      have s5 : List.Perm (a :: b :: (as ++ bs)) (a :: (as ++ b :: bs)) :=
        (List.perm_middle.symm).cons a
      exact (s2.trans s3).trans s5

/-- The shell pass permutes its input. -/
theorem shellPass_perm (l : List Field) : List.Perm (shellPass l) l := by
  unfold shellPass
  split
  · exact List.Perm.refl l
  · have h := shellZip_perm (l.take 6) (l.drop 6)
    rw [List.take_append_drop 6 l] at h
    exact h

/-- The modelled `sort.Sort` permutes its input. -/
theorem goSortSmall_perm (l : List Field) : List.Perm (goSortSmall l) l :=
  (insertionSortGo_perm (shellPass l)).trans (shellPass_perm l)

/-- Insertion preserves sortedness. -/
theorem insertOrdered_sorted (x : Field) :
    ∀ l : List Field, List.Sorted fieldLe l →
      List.Sorted fieldLe (insertOrdered x l)
  | [], _ => by simp [insertOrdered, List.Sorted]
  | y :: ys, h => by
    rw [List.sorted_cons] at h
    simp only [insertOrdered]
    by_cases hxy : fieldLess x y
    · rw [if_pos hxy]
      rw [List.sorted_cons]
      have hxyle : fieldLe x y := by
        simp only [fieldLess, decide_eq_true_eq] at hxy
        exact le_of_lt hxy
      refine ⟨fun b hb => ?_, List.sorted_cons.mpr h⟩
      rcases List.mem_cons.mp hb with rfl | hb
      · exact hxyle
      · exact le_trans hxyle (h.1 b hb)
    · rw [if_neg hxy]
      rw [List.sorted_cons]
      have hyx : fieldLe y x := by
        simp only [fieldLess, decide_eq_true_eq] at hxy
        show y.Order ≤ x.Order
        omega
      refine ⟨fun b hb => ?_, insertOrdered_sorted x ys h.2⟩
      rcases List.mem_cons.mp ((insertOrdered_perm x ys).mem_iff.mp hb) with rfl | hb2
      · exact hyx
      · exact h.1 b hb2

/-- The insertion fold of a sorted accumulator stays sorted. -/
theorem foldl_insert_sorted :
    ∀ (l acc : List Field), List.Sorted fieldLe acc →
      List.Sorted fieldLe (l.foldl (fun a x => insertOrdered x a) acc)
  | [], _, h => h
  | x :: xs, acc, h => by
    simp only [List.foldl_cons]
    exact foldl_insert_sorted xs (insertOrdered x acc) (insertOrdered_sorted x acc h)

/-- The modelled `sort.Sort` output is sorted by Order. -/
theorem goSortSmall_sorted (l : List Field) :
    List.Sorted fieldLe (goSortSmall l) :=
  foldl_insert_sorted (shellPass l) [] (by simp [List.Sorted])

/-- Inserting an upper bound appends it. -/
theorem insertOrdered_append (x : Field) :
    ∀ acc : List Field, (∀ y ∈ acc, fieldLe y x) →
      insertOrdered x acc = acc ++ [x]
  | [], _ => rfl
  | y :: ys, h => by
    have hy : fieldLe y x := h y (by simp)
    have hne : ¬ fieldLess x y = true := by
      simp only [fieldLess, decide_eq_true_eq, not_lt]
      exact hy
    simp only [insertOrdered, if_neg hne]
    rw [insertOrdered_append x ys (fun z hz => h z (by simp [hz]))]
    simp

/-- Insertion-sorting past a sorted accumulator-plus-input reproduces it. -/
theorem foldl_insert_of_sorted :
    ∀ (l acc : List Field), List.Sorted fieldLe (acc ++ l) →
      l.foldl (fun a x => insertOrdered x a) acc = acc ++ l
  | [], acc, _ => by simp
  | x :: xs, acc, h => by
    have hx : ∀ y ∈ acc, fieldLe y x := fun y hy =>
      (List.pairwise_append.mp h).2.2 y hy x (by simp)
    simp only [List.foldl_cons]
    rw [insertOrdered_append x acc hx]
    have h2 : List.Sorted fieldLe ((acc ++ [x]) ++ xs) := by
      simpa [List.append_assoc] using h
    rw [foldl_insert_of_sorted xs (acc ++ [x]) h2]
    simp

/-- Go's insertion sort of a sorted list is the identity. -/
theorem insertionSortGo_of_sorted (l : List Field)
    (h : List.Sorted fieldLe l) : insertionSortGo l = l := by
  unfold insertionSortGo
  simpa using foldl_insert_of_sorted l [] (by simpa using h)

/-- The shell pass never swaps when each right-track element is at least its
left-track partner. -/
theorem shellZip_eq_of_le :
    ∀ as bs : List Field,
      (∀ (i : Nat) (a b : Field), as.get? i = some a → bs.get? i = some b →
        fieldLe a b) →
      shellZip as bs = (as, bs)
  | [], _, _ => rfl
  | _ :: _, [], _ => rfl
  | a :: as, b :: bs, h => by
    have hab : fieldLe a b := h 0 a b rfl rfl
    have hne : ¬ fieldLess b a = true := by
      simp only [fieldLess, decide_eq_true_eq, not_lt]
      exact hab
    simp only [shellZip, if_neg hne]
    rw [shellZip_eq_of_le as bs (fun i x y hx hy => h (i + 1) x y hx hy)]

/-- The shell pass of a sorted list is the identity. -/
theorem shellPass_of_sorted (l : List Field) (h : List.Sorted fieldLe l) :
    shellPass l = l := by
  have hp : List.Pairwise fieldLe l := h
  unfold shellPass
  split
  · rfl
  · rw [shellZip_eq_of_le (l.take 6) (l.drop 6) ?_]
    · exact List.take_append_drop 6 l
    · intro i a b ha hb
      rw [List.get?_eq_getElem?, List.getElem?_take] at ha
      rw [List.get?_eq_getElem?, List.getElem?_drop] at hb
      by_cases hi : i < 6
      · rw [if_pos hi] at ha
        obtain ⟨hia, hga⟩ := List.getElem?_eq_some.mp ha
        obtain ⟨hib, hgb⟩ := List.getElem?_eq_some.mp hb
        have hle := List.pairwise_iff_getElem.mp hp i (6 + i) hia hib (by omega)
        rw [hga, hgb] at hle
        exact hle
      · rw [if_neg hi] at ha
        exact absurd ha (by simp)

/-- The modelled `sort.Sort` of a sorted list is the identity. -/
theorem goSortSmall_of_sorted (l : List Field) (h : List.Sorted fieldLe l) :
    goSortSmall l = l := by
  unfold goSortSmall
  rw [shellPass_of_sorted l h]
  exact insertionSortGo_of_sorted l h

/-! ### Helper lemmas about `format` -/

/-- Without a `Format` key, `format` concatenates the string forms of the
sorted values with no separator. -/
theorem formatM_no_format (fds : List Field)
    (h : ∀ fd ∈ fds, fd.Key ≠ "Format") :
    formatM fds
      = some (String.join ((goSortSmall fds).map (fun fd => stringOfVal fd.Value))) := by
  unfold formatM formatToM
  have h2 : ∀ fd ∈ goSortSmall fds, fd.Key ≠ "Format" := fun fd hfd =>
    h fd ((goSortSmall_perm fds).mem_iff.mp hfd)
  rw [formatToAux_no_format (goSortSmall fds) false "" [] h2]
  simp [List.map_map, Function.comp_def]

/-- On a builder-made format entry, `format` applies the template to the
values: the field list is already sorted (so the unstable sort leaves it in
place), the `Format` head sets the template, and the value fields supply the
arguments in order. -/
theorem formatM_mkFormatFields (f : String) (v : List Val) :
    formatM (mkFormatFields f v) = some (goSprintf f v) := by
  unfold formatM formatToM
  rw [goSortSmall_of_sorted _ (mkFormatFields_sorted f v)]
  show (formatToAux (mkFormatFields f v) false "" []).map _ = _
  unfold mkFormatFields
  simp only [formatToAux, if_pos rfl]
  rw [formatToAux_no_format (mkFields 1 v) true f []
    (fun fd hfd => mkFieldsAux_key_ne 1 v 0 fd hfd)]
  unfold mkFields
  rw [mkFieldsAux_values 1 v 0]
  simp

/-- A bad `Format` field (non-string value) makes `format`, and with it both
field-rendering formatters, panic. -/
theorem formatM_bad_format (fds : List Field)
    (h : ∃ fd ∈ fds, fd.Key = "Format" ∧ isStrVal fd.Value = false) :
    formatM fds = none := by
  unfold formatM formatToM
  rcases h with ⟨fd, hmem, hk, hv⟩
  rw [formatToAux_bad_format (goSortSmall fds) false "" []
    ⟨fd, (goSortSmall_perm fds).mem_iff.mpr hmem, hk, hv⟩]
  rfl

/-! ### Helper lemmas about hook firing -/

/-- When every hook returns nil, the loop invokes all of them in order and
returns success. -/
theorem fireList_all_ok (e : EntryData) :
    ∀ hs : List Hook, (∀ h ∈ hs, h.run e = .ok) →
      fireList hs e = (.ok, hs.map Hook.id)
  | [], _ => rfl
  | h :: hs, hok => by
    have h1 : h.run e = .ok := hok h (by simp)
    simp only [fireList, h1]
    rw [fireList_all_ok e hs (fun g hg => hok g (by simp [hg]))]
    rfl

/-- The loop stops at the first hook returning a non-nil error: exactly the
hooks up to and including it are invoked, and its error is returned. -/
theorem fireList_first_err (e : EntryData) (h0 : Hook) (s : String)
    (hrun : h0.run e = .err s) :
    ∀ pre post : List Hook, (∀ h ∈ pre, h.run e = .ok) →
      fireList (pre ++ h0 :: post) e = (.err s, (pre ++ [h0]).map Hook.id)
  | [], post, _ => by
    simp only [List.nil_append, fireList, hrun]
    rfl
  | g :: pre, post, hok => by
    have h1 : g.run e = .ok := hok g (by simp)
    have hrec := fireList_first_err e h0 s hrun pre post
      (fun x hx => hok x (by simp [hx]))
    show fireList (g :: (pre ++ h0 :: post)) e
      = (.err s, ((g :: pre) ++ [h0]).map Hook.id)
    simp only [fireList, h1]
    rw [hrec]
    rfl

/-! ### Helper lemmas about the pipeline trace -/

/-- Every trace `logRun` produces is strictly increasing in pipeline stage. -/
theorem logRun_stage_strict (lg : LoggerM) (e : EntryData) (w : World) :
    List.Pairwise (fun a b => stage a < stage b) (logRun lg e w).2 := by
  simp only [logRun]
  rcases h1 : (hooksFire lg.hooks .PRE (EntryLevel lg.level e) e).1
      with _ | s1 | n1 | s1 <;>
    simp only [h1] <;>
    rcases h2 : lg.formatter lg.level e with _ | ⟨b, ferr⟩ <;>
    (try simp only [h2]) <;>
    rcases h3 : (hooksFire lg.hooks .POST (EntryLevel lg.level e) e).1
      with _ | s3 | n3 | s3 <;>
    (try simp only [h3]) <;>
    simp [stage]

/-- In a stage-strict trace, an event of an earlier stage sits at a smaller
index. -/
theorem stage_lt_index {t : List Ev}
    (hp : List.Pairwise (fun a b => stage a < stage b) t)
    {i j : Nat} {a b : Ev} (ha : t.get? i = some a) (hb : t.get? j = some b)
    (hab : stage a < stage b) : i < j := by
  rw [List.get?_eq_getElem?] at ha hb
  obtain ⟨hia, hga⟩ := List.getElem?_eq_some.mp ha
  obtain ⟨hjb, hgb⟩ := List.getElem?_eq_some.mp hb
  by_contra hle
  push_neg at hle
  rcases Nat.lt_or_ge j i with hj | hj
  · have := List.pairwise_iff_getElem.mp hp j i hjb hia hj
    rw [hga, hgb] at this
    omega
  · have : i = j := by omega
    subst this
    rw [hga] at hgb
    subst hgb
    omega

/-! ### Claim theorems -/

/-- C1: Level gating by call family.  For every logger with minimum level
`m`: `Fatal`/`Fatalf`/`Fatalln` emit a record iff `m >= LFatal`, and the
emitted record carries level `LFatal`; `Panic`/`Panicf`/`Panicln` emit iff
`m >= LPanic`, at level `LPanic`; `Print`/`Printf`/`Println` emit iff
`m >= LError` but the emitted record carries level `LInfo`; and `At`/`Atf`
always emit, at the requested level, regardless of `m`. -/
theorem c1_level_gating (m lv : Level) (f : String) (v : List Val) :
    ((Fatal m v).isSome = levelGE m .LFatal
      ∧ (Fatalf m f v).isSome = levelGE m .LFatal
      ∧ (Fatalln m v).isSome = levelGE m .LFatal
      ∧ (Fatal m v).map EntryData.level
          = (if levelGE m .LFatal then some .LFatal else none)
      ∧ (Fatalf m f v).map EntryData.level
          = (if levelGE m .LFatal then some .LFatal else none)
      ∧ (Fatalln m v).map EntryData.level
          = (if levelGE m .LFatal then some .LFatal else none))
    ∧ ((Panic m v).isSome = levelGE m .LPanic
      ∧ (Panicf m f v).isSome = levelGE m .LPanic
      ∧ (Panicln m v).isSome = levelGE m .LPanic
      ∧ (Panic m v).map EntryData.level
          = (if levelGE m .LPanic then some .LPanic else none)
      ∧ (Panicf m f v).map EntryData.level
          = (if levelGE m .LPanic then some .LPanic else none)
      ∧ (Panicln m v).map EntryData.level
          = (if levelGE m .LPanic then some .LPanic else none))
    ∧ ((Print m v).isSome = levelGE m .LError
      ∧ (Printf m f v).isSome = levelGE m .LError
      ∧ (Println m v).isSome = levelGE m .LError
      ∧ (Print m v).map EntryData.level
          = (if levelGE m .LError then some .LInfo else none)
      ∧ (Printf m f v).map EntryData.level
          = (if levelGE m .LError then some .LInfo else none)
      ∧ (Println m v).map EntryData.level
          = (if levelGE m .LError then some .LInfo else none))
    ∧ ((At m lv v).isSome = true
      ∧ (At m lv v).map EntryData.level = some lv
      ∧ (Atf m lv f v).isSome = true
      ∧ (Atf m lv f v).map EntryData.level = some lv) := by
  cases hF : levelGE m .LFatal <;> cases hP : levelGE m .LPanic <;>
    cases hE : levelGE m .LError <;>
    simp [Fatal, Fatalf, Fatalln, Panicln, Panic, Panicf, Print, Printf,
      Println, At, Atf, hF, hP, hE]

/-- C4 counterexample: `mkFormatFields "f" [a]` emits the `Format` field at
Order 1 and the first value field also at Order 1, so the output of this
builder is neither strictly ascending in Order nor free of duplicate Orders. -/
theorem c4_counterexample :
    (mkFormatFields "f" [.str "a"]).map Field.Order = [1, 1]
    ∧ ¬ ((mkFormatFields "f" [.str "a"]).map Field.Order).Nodup
    ∧ ¬ List.Pairwise (fun a b => a.Order < b.Order) (mkFormatFields "f" [.str "a"]) :=
  ⟨by decide, by decide, by decide⟩

/-- C4 amended: `mkFields` output has strictly ascending Orders (hence no
duplicates); `mkFormatFields` output is only non-decreasing: its value-field
tail is strictly ascending, but the `Format` head carries Order 1, the same
Order as the first value field whenever at least one value is present. -/
theorem c4_builder_orders (index : Int) (f : String) (v : List Val) :
    List.Pairwise (fun a b => a.Order < b.Order) (mkFields index v)
    ∧ ((mkFields index v).map Field.Order).Nodup
    ∧ List.Pairwise fieldLe (mkFormatFields f v)
    ∧ List.Pairwise (fun a b => a.Order < b.Order) (mkFields 1 v)
    ∧ (mkFormatFields f v).head? = some ⟨1, "Format", .str f⟩ := by
  refine ⟨mkFieldsAux_pairwise index v 0, ?_, mkFormatFields_sorted f v,
    mkFieldsAux_pairwise 1 v 0, rfl⟩
  exact (mkFieldsAux_pairwise index v 0).map Field.Order
    (fun a b hab => ne_of_lt hab)

/-- C5 counterexample: on this 7-field list the gap-6 shell pass of
`sort.Sort` swaps index 6 below index 0, carrying one Order-5 field past the
other; the two fields with equal Order 5 leave the sort in reversed emission
order, so the sort is not stable and does not reproduce emission order. -/
theorem c5_counterexample :
    ([⟨5, "a", .str ""⟩, ⟨1, "b", .str ""⟩, ⟨1, "c", .str ""⟩, ⟨1, "d", .str ""⟩,
      ⟨1, "e", .str ""⟩, ⟨5, "f", .str ""⟩, ⟨0, "g", .str ""⟩] : List Field).length ≤ 12
    ∧ (([⟨5, "a", .str ""⟩, ⟨1, "b", .str ""⟩, ⟨1, "c", .str ""⟩, ⟨1, "d", .str ""⟩,
         ⟨1, "e", .str ""⟩, ⟨5, "f", .str ""⟩, ⟨0, "g", .str ""⟩] : List Field).filter
          (fun fd => fd.Order == 5)).map Field.Key = ["a", "f"]
    ∧ ((goSortSmall [⟨5, "a", .str ""⟩, ⟨1, "b", .str ""⟩, ⟨1, "c", .str ""⟩,
          ⟨1, "d", .str ""⟩, ⟨1, "e", .str ""⟩, ⟨5, "f", .str ""⟩,
          ⟨0, "g", .str ""⟩]).filter
          (fun fd => fd.Order == 5)).map Field.Key = ["f", "a"] :=
  ⟨by decide, by decide, by decide⟩

/-- C5 amended: within the modelled regime (at most 12 fields, `sort.Sort`'s
small-slice path) the sort performed before rendering produces a permutation
of the fields that is sorted by Order; it is not stable, so fields with equal
Order may lose their original emission order (see the counterexample).  When
all Orders are distinct the sorted sequence is the unique Order-sorted
rearrangement. -/
theorem c5_sort_by_order (l : List Field) (h : l.length ≤ 12) :
    List.Perm (goSortSmall l) l ∧ List.Sorted fieldLe (goSortSmall l) :=
  ⟨goSortSmall_perm l, goSortSmall_sorted l⟩

/-- Witness for C5 at a concrete two-field list. -/
theorem c5_witness :
    List.Perm (goSortSmall [⟨1, "a", .str ""⟩, ⟨0, "b", .str ""⟩])
      [⟨1, "a", .str ""⟩, ⟨0, "b", .str ""⟩]
    ∧ List.Sorted fieldLe (goSortSmall [⟨1, "a", .str ""⟩, ⟨0, "b", .str ""⟩]) :=
  c5_sort_by_order [⟨1, "a", .str ""⟩, ⟨0, "b", .str ""⟩] (by decide)

/-- C6 counterexample: with the owning logger configured at `LDebug`,
`SetEntryLevel LUnrecognized` followed by `EntryLevel` returns `LDebug`, not
the level that was set; the claim's universal "returns exactly L" fails at
`L = LUnrecognized`. -/
theorem c6_counterexample :
    EntryLevel .LDebug (SetEntryLevel ⟨.LInfo, []⟩ .LUnrecognized) ≠ .LUnrecognized := by
  decide

/-- C6 amended: for every `L ≠ LUnrecognized`, `EntryLevel` after
`SetEntryLevel L` returns exactly `L`; after `SetEntryLevel LUnrecognized` it
returns the owning logger's configured level; in general `EntryLevel` returns
the entry's explicit level when that is not `LUnrecognized` and otherwise
falls back to the logger's configured level. -/
theorem c6_entry_level (loggerLevel L : Level) (e : EntryData) :
    (L ≠ .LUnrecognized → EntryLevel loggerLevel (SetEntryLevel e L) = L)
    ∧ EntryLevel loggerLevel (SetEntryLevel e .LUnrecognized) = loggerLevel
    ∧ (e.level ≠ .LUnrecognized → EntryLevel loggerLevel e = e.level)
    ∧ (e.level = .LUnrecognized → EntryLevel loggerLevel e = loggerLevel) :=
  ⟨fun h => by simp [EntryLevel, SetEntryLevel, h],
   by simp [EntryLevel, SetEntryLevel],
   fun h => by simp [EntryLevel, h],
   fun h => by simp [EntryLevel, h]⟩

/-- Witness for C6 at concrete levels. -/
theorem c6_witness :
    EntryLevel .LDebug (SetEntryLevel ⟨.LInfo, []⟩ .LWarn) = .LWarn
    ∧ EntryLevel .LWarn ⟨.LError, []⟩ = .LError
    ∧ EntryLevel .LWarn ⟨.LUnrecognized, []⟩ = .LWarn :=
  ⟨(c6_entry_level .LDebug .LWarn ⟨.LInfo, []⟩).1 (by decide),
   (c6_entry_level .LWarn .LError ⟨.LError, []⟩).2.2.1 (by decide),
   (c6_entry_level .LWarn .LUnrecognized ⟨.LUnrecognized, []⟩).2.2.2 rfl⟩

/-- C8: for every string whose lowercasing is a recognized level name,
`Level.String (StringToLevel s)` is exactly that lowercase name; every other
string parses to `LUnrecognized`, whose string form is `"unrecognized"`. -/
theorem c8_level_name_roundtrip (s : String) :
    (goToLower s ∈ levelNames →
      Level.String (StringToLevel s) = goToLower s)
    ∧ (goToLower s ∉ levelNames → StringToLevel s = .LUnrecognized)
    ∧ Level.String .LUnrecognized = "unrecognized" := by
  refine ⟨fun h => ?_, fun h => ?_, rfl⟩
  · simp only [levelNames, List.mem_cons, List.not_mem_nil, or_false] at h
    rcases h with h | h | h | h | h | h <;>
      (simp only [StringToLevel]; rw [h]; decide)
  · simp only [levelNames, List.mem_cons, List.not_mem_nil, or_false] at h
    push_neg at h
    obtain ⟨h1, h2, h3, h4, h5, h6⟩ := h
    simp [StringToLevel, h1, h2, h3, h4, h5, h6]

/-- Witness for C8 at a recognized (mixed-case) and an unrecognized name. -/
theorem c8_witness :
    Level.String (StringToLevel "PANIC") = goToLower "PANIC"
    ∧ StringToLevel "bogus" = .LUnrecognized :=
  ⟨(c8_level_name_roundtrip "PANIC").1 (by decide),
   (c8_level_name_roundtrip "bogus").2.1 (by decide)⟩

/-- C2: in every pipeline trace, PRE hooks fire before rendering and POST
hooks fire only after the rendered bytes were copied to the sink; the
built-in process-exit hook is registered at (POST, LFatal) and the panic hook
at (POST, LPanic), and any exit or panic event in a trace containing a write
comes after that write — fatal/panic output is written before termination. -/
theorem c2_post_after_write (lg : LoggerM) (e : EntryData) (w : World)
    (i j : Nat) (b : String) (ferr : Option String) (lv lv2 : Level)
    (ids ids2 : List HookId) (n : Nat) (s : String) :
    newHooksReg .POST .LFatal = [exitHook]
    ∧ newHooksReg .POST .LPanic = [panicHook]
    ∧ ((logRun lg e w).2.get? i = some (.preFired lv ids) →
        (logRun lg e w).2.get? j = some (.rendered b ferr) → i < j)
    ∧ ((logRun lg e w).2.get? i = some (.wrote b) →
        (logRun lg e w).2.get? j = some (.postFired lv2 ids2) → i < j)
    ∧ ((logRun lg e w).2.get? i = some (.wrote b) →
        (logRun lg e w).2.get? j = some (.exited n) → i < j)
    ∧ ((logRun lg e w).2.get? i = some (.wrote b) →
        (logRun lg e w).2.get? j = some (.panicked s) → i < j) := by
  refine ⟨rfl, rfl, ?_, ?_, ?_, ?_⟩ <;>
    intro ha hb <;>
    exact stage_lt_index (logRun_stage_strict lg e w) ha hb (by simp [stage])

/-- Witness for C2 on two concrete runs: a fatal record (built-in exit hook)
and a panic record (built-in panic hook), both through the raw formatter. -/
theorem c2_witness :
    (0 : Nat) < 1 ∧ (2 : Nat) < 3 ∧ (2 : Nat) < 4 ∧ (2 : Nat) < 4 :=
  ⟨(c2_post_after_write ⟨.LDebug, rawFmt, newHooksReg⟩
      ⟨.LFatal, mkFields 0 [.str "FATAL!"]⟩ ⟨"", ""⟩ 0 1 "FATAL!\n" none
      .LFatal .LFatal [] [.exitHook] 1 "panic hook").2.2.1 rfl rfl,
   (c2_post_after_write ⟨.LDebug, rawFmt, newHooksReg⟩
      ⟨.LFatal, mkFields 0 [.str "FATAL!"]⟩ ⟨"", ""⟩ 2 3 "FATAL!\n" none
      .LFatal .LFatal [] [.exitHook] 1 "panic hook").2.2.2.1 rfl rfl,
   (c2_post_after_write ⟨.LDebug, rawFmt, newHooksReg⟩
      ⟨.LFatal, mkFields 0 [.str "FATAL!"]⟩ ⟨"", ""⟩ 2 4 "FATAL!\n" none
      .LFatal .LFatal [] [.exitHook] 1 "panic hook").2.2.2.2.1 rfl rfl,
   (c2_post_after_write ⟨.LDebug, rawFmt, newHooksReg⟩
      ⟨.LPanic, mkFields 0 [.str "PANIC!"]⟩ ⟨"", ""⟩ 2 4 "PANIC!\n" none
      .LPanic .LPanic [] [.panicHook] 1 "panic hook").2.2.2.2.2 rfl rfl⟩

/-- C3: the raw formatter renders the rendered-field-body followed by one
newline: with a `Format`-keyed field present its value is the template
applied to the remaining values in Order, otherwise the values' string forms
are concatenated in Order with no separator; on the three-field example the
output is exactly "first field-second field-third field\n". -/
theorem c3_raw_formatter (lvl : Level) (fds : List Field) (f : String)
    (v : List Val) :
    RawFormatter_Format ⟨lvl, [⟨0, "one", .str "first field-"⟩,
        ⟨1, "two", .str "second field-"⟩, ⟨2, "three", .str "third field"⟩]⟩
      = some ("first field-second field-third field\n", none)
    ∧ (fds.length ≤ 12 → (∀ fd ∈ fds, fd.Key ≠ "Format") →
        RawFormatter_Format ⟨lvl, fds⟩
          = some (String.join ((goSortSmall fds).map
              (fun fd => stringOfVal fd.Value)) ++ "\n", none))
    ∧ (v.length + 1 ≤ 12 →
        RawFormatter_Format ⟨lvl, mkFormatFields f v⟩
          = some (goSprintf f v ++ "\n", none)) := by
  refine ⟨rfl, fun _ h => ?_, fun _ => ?_⟩
  · unfold RawFormatter_Format
    rw [formatM_no_format fds h]
    rfl
  · unfold RawFormatter_Format
    rw [formatM_mkFormatFields f v]
    rfl

/-- Witness for C3 at a concrete unsorted field list and a concrete
template. -/
theorem c3_witness :
    RawFormatter_Format ⟨.LInfo, [⟨1, "b", .str "Y"⟩, ⟨0, "a", .str "X"⟩]⟩
      = some (String.join ((goSortSmall [⟨1, "b", .str "Y"⟩, ⟨0, "a", .str "X"⟩]).map
          (fun fd => stringOfVal fd.Value)) ++ "\n", none)
    ∧ RawFormatter_Format ⟨.LInfo, mkFormatFields "%s!" [.str "A"]⟩
      = some (goSprintf "%s!" [.str "A"] ++ "\n", none) :=
  ⟨(c3_raw_formatter .LInfo [⟨1, "b", .str "Y"⟩, ⟨0, "a", .str "X"⟩] "%s!"
      [.str "A"]).2.1 (by decide) (by decide),
   (c3_raw_formatter .LInfo [⟨1, "b", .str "Y"⟩, ⟨0, "a", .str "X"⟩] "%s!"
      [.str "A"]).2.2 (by decide)⟩

/-- C7: hook firing matches only the exact (timing, level) pair: with nothing
registered under the pair, `Fire` is a no-op success; otherwise the hooks run
in registration order and the first non-nil error is returned without
invoking the remaining hooks; and hooks added under one (timing, level) key
leave firing under every other key unchanged. -/
theorem c7_hook_firing (r : HooksReg) (t t' : Timing) (l l' : Level)
    (e : EntryData) (hs pre post : List Hook) (h0 : Hook) (s : String) :
    (r t l = [] → hooksFire r t l e = (.ok, []))
    ∧ ((∀ h ∈ hs, h.run e = .ok) → fireList hs e = (.ok, hs.map Hook.id))
    ∧ ((∀ h ∈ pre, h.run e = .ok) → h0.run e = .err s →
        fireList (pre ++ h0 :: post) e = (.err s, (pre ++ [h0]).map Hook.id))
    ∧ ((t', l') ≠ (t, l) →
        hooksFire (AddHook r t l hs) t' l' e = hooksFire r t' l' e) := by
  refine ⟨fun h => ?_, fun h => fireList_all_ok e hs h,
    fun h1 h2 => fireList_first_err e h0 s h2 pre post h1, fun hne => ?_⟩
  · unfold hooksFire
    rw [h]
    rfl
  · have hcond : ¬ (t' = t ∧ l' = l) := by
      rintro ⟨rfl, rfl⟩
      exact hne rfl
    unfold hooksFire AddHook
    rw [if_neg hcond]

/-- Witness for C7: the empty (PRE-side) list is a no-op; a concrete all-ok
list fires fully; a concrete erring hook short-circuits; adding a hook at
(POST, LError) does not change firing at (POST, LInfo). -/
theorem c7_witness :
    hooksFire newHooksReg .POST .LError ⟨.LInfo, []⟩ = (.ok, [])
    ∧ fireList [⟨.user 7, fun _ => .ok⟩] ⟨.LInfo, []⟩ = (.ok, [.user 7])
    ∧ fireList [⟨.user 1, fun _ => .ok⟩, ⟨.user 2, fun _ => .err "boom"⟩,
        ⟨.user 3, fun _ => .ok⟩] ⟨.LInfo, []⟩ = (.err "boom", [.user 1, .user 2])
    ∧ hooksFire (AddHook newHooksReg .POST .LError [⟨.user 7, fun _ => .ok⟩])
        .POST .LInfo ⟨.LInfo, []⟩ = hooksFire newHooksReg .POST .LInfo ⟨.LInfo, []⟩ :=
  ⟨(c7_hook_firing newHooksReg .POST .POST .LError .LInfo ⟨.LInfo, []⟩
      [⟨.user 7, fun _ => .ok⟩] [⟨.user 1, fun _ => .ok⟩]
      [⟨.user 3, fun _ => .ok⟩] ⟨.user 2, fun _ => .err "boom"⟩ "boom").1 rfl,
   (c7_hook_firing newHooksReg .POST .POST .LError .LInfo ⟨.LInfo, []⟩
      [⟨.user 7, fun _ => .ok⟩] [⟨.user 1, fun _ => .ok⟩]
      [⟨.user 3, fun _ => .ok⟩] ⟨.user 2, fun _ => .err "boom"⟩ "boom").2.1
      (by intro h hh; simp only [List.mem_singleton] at hh; subst hh; rfl),
   (c7_hook_firing newHooksReg .POST .POST .LError .LInfo ⟨.LInfo, []⟩
      [⟨.user 7, fun _ => .ok⟩] [⟨.user 1, fun _ => .ok⟩]
      [⟨.user 3, fun _ => .ok⟩] ⟨.user 2, fun _ => .err "boom"⟩ "boom").2.2.1
      (by intro h hh; simp only [List.mem_singleton] at hh; subst hh; rfl) rfl,
   (c7_hook_firing newHooksReg .POST .POST .LError .LInfo ⟨.LInfo, []⟩
      [⟨.user 7, fun _ => .ok⟩] [⟨.user 1, fun _ => .ok⟩]
      [⟨.user 3, fun _ => .ok⟩] ⟨.user 2, fun _ => .err "boom"⟩ "boom").2.2.2
      (by decide)⟩

/-- C9 counterexample: a formatter that returns bytes alongside its error
("BOOM", err): `log` prints the diagnostic but still copies the returned
bytes, so the record's write to the sink is NOT skipped. -/
theorem c9_counterexample :
    (logRun ⟨.LDebug, fun _ _ => some ("BOOM", some "bad"), newHooksReg⟩
        ⟨.LInfo, []⟩ ⟨"", ""⟩).1.sink = "BOOM"
    ∧ (logRun ⟨.LDebug, fun _ _ => some ("BOOM", some "bad"), newHooksReg⟩
        ⟨.LInfo, []⟩ ⟨"", ""⟩).1.diag = "log: Failed to obtain reader -- bad\n" :=
  ⟨rfl, rfl⟩

/-- C9 amended: when the active formatter returns an error, the error is
reported to the diagnostic fallback stream and the call returns normally (no
error propagates, no retry, no termination event in the trace) — but the
bytes the formatter returned alongside the error are still copied to the
sink; the write is skipped only in the sense that a formatter returning no
bytes writes nothing. -/
theorem c9_render_error (lg : LoggerM) (e : EntryData) (w : World) (b s : String)
    (hfmt : lg.formatter lg.level e = some (b, some s))
    (hpre : lg.hooks .PRE (EntryLevel lg.level e) = [])
    (hpost : lg.hooks .POST (EntryLevel lg.level e) = []) :
    logRun lg e w =
      ({ sink := w.sink ++ b,
         diag := w.diag ++ "log: Failed to obtain reader -- " ++ s ++ "\n" },
       [.preFired (EntryLevel lg.level e) [], .rendered b (some s),
        .wrote b, .postFired (EntryLevel lg.level e) []]) := by
  simp only [logRun, hooksFire, hpre, hpost, hfmt, fireList, hookDiag]

/-- Witness for C9 on the concrete erring formatter. -/
theorem c9_witness :
    logRun ⟨.LDebug, fun _ _ => some ("BOOM", some "bad"), newHooksReg⟩
        ⟨.LInfo, []⟩ ⟨"", ""⟩
      = (⟨"BOOM", "log: Failed to obtain reader -- bad\n"⟩,
         [.preFired .LInfo [], .rendered "BOOM" (some "bad"),
          .wrote "BOOM", .postFired .LInfo []]) :=
  c9_render_error ⟨.LDebug, fun _ _ => some ("BOOM", some "bad"), newHooksReg⟩
    ⟨.LInfo, []⟩ ⟨"", ""⟩ "BOOM" "bad" rfl rfl rfl

/-- C10: rendering is not total over manually built entries: a field keyed
"Format" with a non-string value makes `formatTo`'s type assertion panic, so
both the raw and the text formatter panic instead of returning an error, and
a pipeline run (as performed by `At`, `Print` or `Log`) over such an entry
halts with a panic before anything is written. -/
theorem c10_format_assertion (fds : List Field) (lvl llvl : Level)
    (name now : String) (noColor : Bool) (w : World)
    (h : ∃ fd ∈ fds, fd.Key = "Format" ∧ isStrVal fd.Value = false) :
    formatM fds = none
    ∧ RawFormatter_Format ⟨lvl, fds⟩ = none
    ∧ TextFormatter_Format name noColor now llvl ⟨lvl, fds⟩ = none
    ∧ (logRun ⟨llvl, rawFmt, newHooksReg⟩ ⟨lvl, fds⟩ w).2
        = [.preFired (EntryLevel llvl ⟨lvl, fds⟩) [], .panicked panicConvMsg]
    ∧ (logRun ⟨llvl, rawFmt, newHooksReg⟩ ⟨lvl, fds⟩ w).1 = w := by
  have hfm : formatM fds = none := formatM_bad_format fds h
  refine ⟨hfm, ?_, ?_, ?_, ?_⟩
  · unfold RawFormatter_Format
    rw [hfm]
    rfl
  · unfold TextFormatter_Format
    rw [hfm]
    rfl
  · simp only [logRun, hooksFire]
    rw [show newHooksReg .PRE (EntryLevel llvl ⟨lvl, fds⟩) = [] from rfl]
    simp only [fireList]
    rw [show rawFmt llvl ⟨lvl, fds⟩ = none from by
      unfold rawFmt RawFormatter_Format; rw [hfm]; rfl]
  · simp only [logRun, hooksFire]
    rw [show newHooksReg .PRE (EntryLevel llvl ⟨lvl, fds⟩) = [] from rfl]
    simp only [fireList]
    rw [show rawFmt llvl ⟨lvl, fds⟩ = none from by
      unfold rawFmt RawFormatter_Format; rw [hfm]; rfl]
    rfl

/-- Witness for C10 on a hand-built entry whose `Format` field holds an int. -/
theorem c10_witness :
    formatM [⟨1, "Format", .int 3⟩] = none
    ∧ RawFormatter_Format ⟨.LInfo, [⟨1, "Format", .int 3⟩]⟩ = none
    ∧ TextFormatter_Format "TEST" true "now" .LDebug
        ⟨.LInfo, [⟨1, "Format", .int 3⟩]⟩ = none
    ∧ (logRun ⟨.LDebug, rawFmt, newHooksReg⟩ ⟨.LInfo, [⟨1, "Format", .int 3⟩]⟩
        ⟨"", ""⟩).2
        = [.preFired (EntryLevel .LDebug ⟨.LInfo, [⟨1, "Format", .int 3⟩]⟩) [],
           .panicked panicConvMsg]
    ∧ (logRun ⟨.LDebug, rawFmt, newHooksReg⟩ ⟨.LInfo, [⟨1, "Format", .int 3⟩]⟩
        ⟨"", ""⟩).1 = ⟨"", ""⟩ :=
  c10_format_assertion [⟨1, "Format", .int 3⟩] .LInfo .LDebug "TEST" "now"
    true ⟨"", ""⟩ ⟨⟨1, "Format", .int 3⟩, by simp, rfl, rfl⟩

end Lg
